import Mathlib

/-!
Shallow embedding of `scripts/fetch_stock_data.py` (class `StockDataFetcher`):
the demo-data generator, the fetch-level response classification, the record
parser, the database upsert, and the pipeline runner, together with proofs of
behavioural properties of these functions.

Modelling conventions:
* Calendar dates are integers (day numbers).  The source keys its time series
  by ISO `YYYY-MM-DD` strings; lexicographic order on such strings agrees with
  chronological order, so sorting date keys is modelled by sorting integers.
* A string field that the parser converts with `float`/`int` is modelled by
  the result of that conversion: `some v` when the string parses to `v`,
  `none` when the conversion raises.  Prices are rationals.
* `random.uniform`/`random.randint` draws are inputs of the model; the
  interval constraints the library guarantees are explicit hypotheses.
* Effectful operations (the HTTP transport, the psycopg2 driver) are modelled
  by oracle inputs describing their outcome.
-/

namespace StockPipeline

/-- One day's raw fields, i.e. the value stored under one `'YYYY-MM-DD'` key
of the `'Time Series (Daily)'` dict.  Each field holds the result of the
numeric conversion the parser applies to the underlying string
(`none` = that conversion raises). -/
structure DailyRaw where
  open_1 : Option ℚ
  high_2 : Option ℚ
  low_3 : Option ℚ
  close_4 : Option ℚ
  volume_5 : Option ℤ
deriving DecidableEq

/-- The `'Meta Data'` dict of a response (informational only, never parsed). -/
structure MetaDataInfo where
  information : String
  symbol : String
  lastRefreshed : ℤ
  outputSize : String
  timeZone : String
deriving DecidableEq

/-- A JSON response dict as inspected by `fetch_stock_data`: each optional
field models the presence of the corresponding top-level key. -/
structure RawResponse where
  errorMessage : Option String
  note : Option String
  information : Option String
  timeSeries : Option (List (ℤ × DailyRaw))
  metaData : Option MetaDataInfo
deriving DecidableEq

/-- One day's random draws in `get_demo_data`
(`uniform(-0.05, 0.05)`, `uniform(-0.02, 0.02)`, `uniform(0, 0.03)` twice,
`randint(1000000, 10000000)`). -/
structure Draws where
  dailyChange : ℚ
  openJitter : ℚ
  highExt : ℚ
  lowExt : ℚ
  volume : ℤ
deriving DecidableEq

/-- The ranges the random library guarantees for one day's draws. -/
def Draws.InRange (d : Draws) : Prop :=
  -(1/20) ≤ d.dailyChange ∧ d.dailyChange ≤ 1/20 ∧
  -(1/50) ≤ d.openJitter ∧ d.openJitter ≤ 1/50 ∧
  0 ≤ d.highExt ∧ d.highExt ≤ 3/100 ∧
  0 ≤ d.lowExt ∧ d.lowExt ≤ 3/100 ∧
  1000000 ≤ d.volume ∧ d.volume ≤ 10000000

instance (d : Draws) : Decidable d.InRange := by
  unfold Draws.InRange; infer_instance

/-- `{'AAPL': 150.0, 'GOOGL': 2500.0, 'MSFT': 300.0}.get(symbol, 100.0)`. -/
def base_price (symbol : String) : ℚ :=
  if symbol = "AAPL" then 150
  else if symbol = "GOOGL" then 2500
  else if symbol = "MSFT" then 300
  else 100

/-- The composite of the f-string formatting `f"{x:.2f}"` and the parser's
`float`: rounding to two decimal places (nearest; ties rounded up — the
source's ties-to-even differs only on exact binary-float ties, which no
claim exercises). -/
def round2 (x : ℚ) : ℚ := (⌊x * 100 + 1/2⌋ : ℚ) / 100

/-- `open_price = base_price * (1 + random.uniform(-0.02, 0.02))`. -/
def open_price (symbol : String) (d : Draws) : ℚ :=
  base_price symbol * (1 + d.openJitter)

/-- `close_price = open_price * (1 + daily_change)`. -/
def close_price (symbol : String) (d : Draws) : ℚ :=
  open_price symbol d * (1 + d.dailyChange)

/-- `high_price = max(open_price, close_price) * (1 + random.uniform(0, 0.03))`. -/
def high_price (symbol : String) (d : Draws) : ℚ :=
  max (open_price symbol d) (close_price symbol d) * (1 + d.highExt)

/-- `low_price = min(open_price, close_price) * (1 - random.uniform(0, 0.03))`. -/
def low_price (symbol : String) (d : Draws) : ℚ :=
  min (open_price symbol d) (close_price symbol d) * (1 - d.lowExt)

/-- The body of `get_demo_data`'s per-day loop: from one day's draws, the
five stored fields (prices two-decimal formatted, volume exact). -/
def demoDay (symbol : String) (d : Draws) : DailyRaw :=
  { open_1 := some (round2 (open_price symbol d))
    high_2 := some (round2 (high_price symbol d))
    low_3 := some (round2 (low_price symbol d))
    close_4 := some (round2 (close_price symbol d))
    volume_5 := some d.volume }

/-- `get_demo_data`: seven entries keyed `today - i` for `i = 0..6`
(insertion order: today first), plus the `'Meta Data'` dict. -/
def get_demo_data (symbol : String) (today : ℤ) (draws : ℕ → Draws) : RawResponse :=
  { errorMessage := none
    note := none
    information := none
    timeSeries := some ((List.range 7).map fun (i : ℕ) => (today - (i : ℤ), demoDay symbol (draws i)))
    metaData := some
      { information := "Demo Daily Prices and Volumes for " ++ symbol
        symbol := symbol
        lastRefreshed := today
        outputSize := "Compact"
        timeZone := "US/Eastern" } }

/-- `fetch_stock_data`.  `transport` is the outcome of
`requests.get(...).json()`: `none` when any exception was raised (both
`except` arms fall back to demo data), `some data` otherwise.  The dict
probes happen in source order: `'Error Message'` present → `None`;
`'Note'` present → `None`; `'Information'` present → demo data; missing
`'Time Series (Daily)'` → demo data; otherwise the live data itself. -/
def fetch_stock_data (symbol : String) (today : ℤ) (draws : ℕ → Draws)
    (transport : Option RawResponse) : Option RawResponse :=
  match transport with
  | none => some (get_demo_data symbol today draws)
  | some data =>
    if data.errorMessage.isSome then none
    else if data.note.isSome then none
    else if data.information.isSome then some (get_demo_data symbol today draws)
    else if data.timeSeries.isNone then some (get_demo_data symbol today draws)
    else some data

/-- The canonical persisted unit built by the parser. -/
structure PriceRecord where
  symbol : String
  date : ℤ
  open_price : ℚ
  high_price : ℚ
  low_price : ℚ
  close_price : ℚ
  volume : ℤ
deriving DecidableEq

/-- Building one record from one day's entry: five numeric conversions, any
of which may raise (`none`). -/
def parseEntry (symbol : String) (date : ℤ) (dd : DailyRaw) : Option PriceRecord :=
  match dd.open_1, dd.high_2, dd.low_3, dd.close_4, dd.volume_5 with
  | some o, some h, some l, some c, some v =>
    some { symbol := symbol, date := date, open_price := o, high_price := h,
           low_price := l, close_price := c, volume := v }
  | _, _, _, _, _ => none

/-- `time_series[date_str]`: dict lookup (a Python dict has unique keys). -/
def lookupDate (ts : List (ℤ × DailyRaw)) (d : ℤ) : Option DailyRaw :=
  (ts.find? fun p => p.1 == d).map Prod.snd

/-- The parser's per-date loop: records are built in order and the first
conversion error aborts the whole batch (the `except` arm returns `[]`,
discarding records already built). -/
def parseLoop (symbol : String) (ts : List (ℤ × DailyRaw)) :
    List ℤ → Option (List PriceRecord)
  | [] => some []
  | d :: ds =>
    match (lookupDate ts d).bind (parseEntry symbol d) with
    | none => none
    | some r =>
      match parseLoop symbol ts ds with
      | none => none
      | some rs => some (r :: rs)

/-- `parse_stock_data`: take the most recent seven date keys
(`sorted(time_series.keys(), reverse=True)[:7]`) and build one record per
key; any error anywhere — including a missing `'Time Series (Daily)'`
key — yields `[]`. -/
def parse_stock_data (data : RawResponse) (symbol : String) : List PriceRecord :=
  match data.timeSeries with
  | none => []
  | some ts =>
    match parseLoop symbol ts ((List.insertionSort (· ≥ ·) (ts.map Prod.fst)).take 7) with
    | none => []
    | some rs => rs

/-- One row of the `stock_prices` table. -/
structure Row where
  symbol : String
  date : ℤ
  open_price : ℚ
  high_price : ℚ
  low_price : ℚ
  close_price : ℚ
  volume : ℤ
  created_at : ℤ
deriving DecidableEq

/-- The `(symbol, date)` uniqueness key of a row. -/
def rowKey (row : Row) : String × ℤ := (row.symbol, row.date)

/-- The `(symbol, date)` key a record writes to. -/
def recKey (r : PriceRecord) : String × ℤ := (r.symbol, r.date)

/-- The row a record materialises as when written at time `now`. -/
def rowOf (r : PriceRecord) (now : ℤ) : Row :=
  { symbol := r.symbol, date := r.date, open_price := r.open_price,
    high_price := r.high_price, low_price := r.low_price,
    close_price := r.close_price, volume := r.volume, created_at := now }

/-- One execution of the `INSERT ... ON CONFLICT (symbol, date) DO UPDATE`
statement at time `now`.  On conflict the statement overwrites the four
price fields and `volume` and sets `created_at = CURRENT_TIMESTAMP`; on a
fresh insert `created_at` takes the column's default, modelled as the same
current timestamp `now` (the DDL lives outside this repository and is
immaterial to the claims below). -/
def upsertOne (now : ℤ) (t : List Row) (r : PriceRecord) : List Row :=
  if ∃ row ∈ t, rowKey row = recKey r then
    t.map fun row => if rowKey row = recKey r then rowOf r now else row
  else
    t ++ [rowOf r now]

/-- `cursor.executemany(insert_query, records)` inside one transaction. -/
def upsertBatch (now : ℤ) (t : List Row) (rs : List PriceRecord) : List Row :=
  rs.foldl (upsertOne now) t

/-- Number of rows of a table carrying the key `k` (the `(symbol, date)`
uniqueness constraint says this is at most one). -/
def countKey (k : String × ℤ) (t : List Row) : ℕ :=
  t.countP fun row => rowKey row == k

/-- The row a point query on key `k` returns. -/
def findRow (k : String × ℤ) (t : List Row) : Option Row :=
  t.find? fun row => rowKey row == k

/-- Oracle describing how the database driver behaves during one
`save_to_database` call. -/
structure DbWorld where
  connectOk : Bool
  cursorOk : Bool
  execOk : Bool
deriving DecidableEq

/-- Observable outcome of one `save_to_database` call: `result = some b`
means the function returns `b`; `result = none` means an exception escapes
it.  `table` is the database table after the call. -/
structure SaveOutcome where
  result : Option Bool
  table : List Row
  connOpened : Bool
  connClosed : Bool
  cursorClosed : Bool
deriving DecidableEq

/-- `save_to_database` over the effect model, called at time `now` against
table `t`.  Paths, in source order:
* empty `records` → return `False` before any connection attempt;
* `connect_to_database` fails → it catches the error and returns `None`,
  so `save_to_database` returns `False`;
* `connection.cursor()` raises → the `except` arm handles it and reaches
  `return False`, but the `finally` block then evaluates `cursor.close()`
  on an unbound local, raising `UnboundLocalError` before
  `connection.close()` is reached: the exception escapes and the
  connection is never closed;
* `executemany`/`commit` fails → rollback (table unchanged), return
  `False`, `finally` closes cursor and connection;
* success → commit, return `True`, `finally` closes cursor and
  connection. -/
def save_to_database (w : DbWorld) (now : ℤ) (t : List Row)
    (records : List PriceRecord) : SaveOutcome :=
  if records.isEmpty then
    { result := some false, table := t,
      connOpened := false, connClosed := false, cursorClosed := false }
  else if !w.connectOk then
    { result := some false, table := t,
      connOpened := false, connClosed := false, cursorClosed := false }
  else if !w.cursorOk then
    { result := none, table := t,
      connOpened := true, connClosed := false, cursorClosed := false }
  else if w.execOk then
    { result := some true, table := upsertBatch now t records,
      connOpened := true, connClosed := true, cursorClosed := true }
  else
    { result := some false, table := t,
      connOpened := true, connClosed := true, cursorClosed := true }

/-- Observable events of one pipeline run, in order: the three stage
attempts per symbol and the fixed 12-second inter-symbol pause. -/
inductive Event where
  | fetch (symbol : String)
  | parse (symbol : String)
  | store (symbol : String)
  | sleep
deriving DecidableEq

/-- The ambient world of one `run_pipeline` call: per-symbol transport
outcome, per-symbol random draws, the local clock, and per-symbol database
behaviour. -/
structure Env where
  transport : String → Option RawResponse
  draws : String → ℕ → Draws
  today : ℤ
  db : String → DbWorld
  now : ℤ

/-- The body of `run_pipeline`'s per-symbol loop iteration, against table
`t`: fetch (falsy result → record failure, `continue`), parse (empty list →
record failure, `continue`), store (`False` → record failure, `continue`;
an escaping exception is caught by the surrounding `except`, recorded as
failure, `continue`), then `time.sleep(12)` on full success.  Returns the
symbol's terminal success, the table afterwards, and the emitted events. -/
def processSymbol (env : Env) (t : List Row) (s : String) :
    Bool × List Row × List Event :=
  match fetch_stock_data s env.today (env.draws s) (env.transport s) with
  | none => (false, t, [Event.fetch s])
  | some raw =>
    let recs := parse_stock_data raw s
    if recs.isEmpty then (false, t, [Event.fetch s, Event.parse s])
    else
      let out := save_to_database (env.db s) env.now t recs
      match out.result with
      | some true =>
        (true, out.table, [Event.fetch s, Event.parse s, Event.store s, Event.sleep])
      | some false =>
        (false, out.table, [Event.fetch s, Event.parse s, Event.store s])
      | none =>
        (false, out.table, [Event.fetch s, Event.parse s, Event.store s])

/-- A symbol's terminal outcome (`stored_ok` or not); independent of the
table state, as proved below. -/
def symbol_success (env : Env) (s : String) : Bool :=
  (processSymbol env [] s).1

/-- The events one symbol's iteration emits. -/
def symbol_events (env : Env) (s : String) : List Event :=
  (processSymbol env [] s).2.2

/-- `run_pipeline`: process the symbols in order, never retrying and never
aborting, AND-ing each symbol's outcome into `overall_success`. -/
def run_pipeline (env : Env) : List Row → List String → Bool × List Row × List Event
  | t, [] => (true, t, [])
  | t, s :: rest =>
    let step := processSymbol env t s
    let restRun := run_pipeline env step.2.1 rest
    (step.1 && restRun.1, restRun.2.1, step.2.2 ++ restRun.2.2)

/-- Draws with every jitter zero (used to instantiate universally quantified
theorems at a concrete input). -/
def drawsZero : Draws :=
  { dailyChange := 0, openJitter := 0, highExt := 0, lowExt := 0, volume := 1000000 }

/-- A concrete response carrying a rate-limit `'Note'` key. -/
def noteResponse : RawResponse :=
  { errorMessage := none
    note := some "API call volume limit reached"
    information := none
    timeSeries := none
    metaData := none }

/-- A concrete time-series entry whose `'1. open'` string is not a number:
the `float` conversion raises. -/
def badOpenDay : DailyRaw :=
  { open_1 := none, high_2 := some 101, low_3 := some 99,
    close_4 := some 100, volume_5 := some 5000 }

/-- A concrete successful response (time series present, no error keys)
with exactly one entry, whose open field is unparsable. -/
def badFieldResponse : RawResponse :=
  { errorMessage := none
    note := none
    information := none
    timeSeries := some [(20000, badOpenDay)]
    metaData := none }

/-- A concrete record used to instantiate the store theorems. -/
def sampleRecord : PriceRecord :=
  { symbol := "AAPL", date := 20000, open_price := 150, high_price := 152,
    low_price := 149, close_price := 151, volume := 5000000 }

/-- A second concrete record with the same key as `sampleRecord` but
different field values. -/
def sampleRecord2 : PriceRecord :=
  { symbol := "AAPL", date := 20000, open_price := 151, high_price := 153,
    low_price := 150, close_price := 152, volume := 6000000 }

/-- A concrete well-formed three-entry time series (dates out of order, all
fields parsable). -/
def smallSeries : List (ℤ × DailyRaw) :=
  [ (20001, { open_1 := some 10, high_2 := some 11, low_3 := some 9,
              close_4 := some 10, volume_5 := some 100 })
  , (20003, { open_1 := some 12, high_2 := some 13, low_3 := some 11,
              close_4 := some 12, volume_5 := some 200 })
  , (20002, { open_1 := some 11, high_2 := some 12, low_3 := some 10,
              close_4 := some 11, volume_5 := some 300 }) ]

/-- A concrete day entry whose values violate every range constraint
(negative open, zero close, `low > high`), yet parse fine. -/
def wildDay : DailyRaw :=
  { open_1 := some (-5), high_2 := some 1, low_3 := some 8,
    close_4 := some 0, volume_5 := some 42 }

/-- The record `wildDay` parses to. -/
def wildRecord : PriceRecord :=
  { symbol := "AAPL", date := 20005, open_price := -5, high_price := 1,
    low_price := 8, close_price := 0, volume := 42 }

/-- A concrete one-entry time series wrapping `wildDay`. -/
def wildSeries : List (ℤ × DailyRaw) := [(20005, wildDay)]

/-- A successful response wrapping `wildSeries`. -/
def wildResponse : RawResponse :=
  { errorMessage := none, note := none, information := none,
    timeSeries := some wildSeries, metaData := none }

/-- A successful response wrapping `smallSeries`. -/
def smallResponse : RawResponse :=
  { errorMessage := none, note := none, information := none,
    timeSeries := some smallSeries, metaData := none }

/-- A concrete environment in which every transport call raises (so every
symbol is served demo data) and the database driver behaves. -/
def envDemo : Env :=
  { transport := fun _ => none
    draws := fun _ _ => drawsZero
    today := 20000
    db := fun _ => { connectOk := true, cursorOk := true, execOk := true }
    now := 0 }

/-- A concrete environment in which every transport call returns the
rate-limit `'Note'` response, so every symbol fails at the fetch stage. -/
def envNote : Env :=
  { transport := fun _ => some noteResponse
    draws := fun _ _ => drawsZero
    today := 20000
    db := fun _ => { connectOk := true, cursorOk := true, execOk := true }
    now := 0 }

lemma rowKey_rowOf (r : PriceRecord) (now : ℤ) : rowKey (rowOf r now) = recKey r := rfl

lemma countKey_overwrite (now : ℤ) (r : PriceRecord) (k : String × ℤ) (t : List Row) :
    countKey k (t.map fun row => if rowKey row = recKey r then rowOf r now else row)
      = countKey k t := by
  unfold countKey
  rw [List.countP_map]
  refine List.countP_congr fun row hrow => ?_
  by_cases h : rowKey row = recKey r
  · simp [Function.comp, h, rowKey_rowOf]
  · simp [Function.comp, h]

lemma countKey_upsertOne_self (now : ℤ) (t : List Row) (r : PriceRecord)
    (h : countKey (recKey r) t ≤ 1) :
    countKey (recKey r) (upsertOne now t r) = 1 := by
  unfold upsertOne
  by_cases hex : ∃ row ∈ t, rowKey row = recKey r
  · rw [if_pos hex, countKey_overwrite]
    have h1 : 1 ≤ countKey (recKey r) t := by
      unfold countKey
      rw [List.one_le_countP_iff]
      obtain ⟨row, hrow, hk⟩ := hex
      exact ⟨row, hrow, by simp [hk]⟩
    omega
  · rw [if_neg hex]
    have h0 : countKey (recKey r) t = 0 := by
      unfold countKey
      rw [List.countP_eq_zero]
      intro row hrow
      simp only [beq_iff_eq]
      exact fun hk => hex ⟨row, hrow, hk⟩
    unfold countKey at h0 ⊢
    rw [List.countP_append, h0]
    simp [rowKey_rowOf]

lemma countKey_upsertOne_other (now : ℤ) (t : List Row) (r : PriceRecord)
    (k : String × ℤ) (hk : k ≠ recKey r) :
    countKey k (upsertOne now t r) = countKey k t := by
  unfold upsertOne
  by_cases hex : ∃ row ∈ t, rowKey row = recKey r
  · rw [if_pos hex, countKey_overwrite]
  · rw [if_neg hex]
    unfold countKey
    rw [List.countP_append]
    simp [rowKey_rowOf, Ne.symm hk]

lemma countKey_upsertOne_le (now : ℤ) (t : List Row) (r : PriceRecord)
    (k : String × ℤ) (h : countKey k t ≤ 1) :
    countKey k (upsertOne now t r) ≤ 1 := by
  by_cases hk : k = recKey r
  · subst hk
    rw [countKey_upsertOne_self now t r h]
  · rw [countKey_upsertOne_other now t r k hk]
    exact h

lemma countKey_upsertOne_ge (now : ℤ) (t : List Row) (r : PriceRecord)
    (k : String × ℤ) :
    countKey k t ≤ countKey k (upsertOne now t r) := by
  unfold upsertOne
  by_cases hex : ∃ row ∈ t, rowKey row = recKey r
  · rw [if_pos hex, countKey_overwrite]
  · rw [if_neg hex]
    unfold countKey
    rw [List.countP_append]
    omega

lemma find_map_overwrite (now : ℤ) (r : PriceRecord) (t : List Row)
    (hex : ∃ row ∈ t, rowKey row = recKey r) :
    (t.map fun row => if rowKey row = recKey r then rowOf r now else row).find?
      (fun row => rowKey row == recKey r) = some (rowOf r now) := by
  induction t with
  | nil => simp at hex
  | cons row rest ih =>
    by_cases h : rowKey row = recKey r
    · simp [h, rowKey_rowOf]
    · have hex' : ∃ q ∈ rest, rowKey q = recKey r := by
        obtain ⟨q, hq, hkq⟩ := hex
        cases hq with
        | head => exact absurd hkq h
        | tail _ hq' => exact ⟨q, hq', hkq⟩
      simpa [h] using ih hex'

lemma find_map_overwrite_other (now : ℤ) (r : PriceRecord) (k : String × ℤ)
    (hk : k ≠ recKey r) (t : List Row) :
    (t.map fun row => if rowKey row = recKey r then rowOf r now else row).find?
      (fun row => rowKey row == k) = t.find? (fun row => rowKey row == k) := by
  induction t with
  | nil => rfl
  | cons row rest ih =>
    by_cases h : rowKey row = recKey r
    · have hhead : (if rowKey row = recKey r then rowOf r now else row) = rowOf r now :=
        if_pos h
      rw [List.map_cons, hhead]
      have h1 : (rowKey (rowOf r now) == k) = false := by simp [rowKey_rowOf, Ne.symm hk]
      have h2 : (rowKey row == k) = false := by simp [h, Ne.symm hk]
      simp only [List.find?, h1, h2]
      exact ih
    · have hhead : (if rowKey row = recKey r then rowOf r now else row) = row := if_neg h
      rw [List.map_cons, hhead]
      by_cases hpk : (rowKey row == k) = true
      · simp only [List.find?, hpk]
      · rw [Bool.not_eq_true] at hpk
        simp only [List.find?, hpk]
        exact ih

lemma findRow_upsertOne_self (now : ℤ) (t : List Row) (r : PriceRecord) :
    findRow (recKey r) (upsertOne now t r) = some (rowOf r now) := by
  unfold upsertOne findRow
  by_cases hex : ∃ row ∈ t, rowKey row = recKey r
  · rw [if_pos hex]
    exact find_map_overwrite now r t hex
  · rw [if_neg hex]
    have h1 : t.find? (fun row => rowKey row == recKey r) = none := by
      rw [List.find?_eq_none]
      intro row hrow
      simp only [beq_iff_eq]
      exact fun hkk => hex ⟨row, hrow, hkk⟩
    rw [List.find?_append, h1]
    simp [rowKey_rowOf]

lemma findRow_upsertOne_other (now : ℤ) (t : List Row) (r : PriceRecord)
    (k : String × ℤ) (hk : k ≠ recKey r) :
    findRow k (upsertOne now t r) = findRow k t := by
  unfold upsertOne findRow
  by_cases hex : ∃ row ∈ t, rowKey row = recKey r
  · rw [if_pos hex]
    exact find_map_overwrite_other now r k hk t
  · rw [if_neg hex]
    rw [List.find?_append]
    simp [rowKey_rowOf, Ne.symm hk]

lemma countKey_upsertBatch_le (now : ℤ) (rs : List PriceRecord) (t : List Row)
    (k : String × ℤ) (h : countKey k t ≤ 1) :
    countKey k (upsertBatch now t rs) ≤ 1 := by
  induction rs generalizing t with
  | nil => exact h
  | cons b bs ih => exact ih (upsertOne now t b) (countKey_upsertOne_le now t b k h)

lemma countKey_upsertBatch_ge (now : ℤ) (rs : List PriceRecord) (t : List Row)
    (k : String × ℤ) :
    countKey k t ≤ countKey k (upsertBatch now t rs) := by
  induction rs generalizing t with
  | nil => exact le_refl _
  | cons b bs ih =>
    exact le_trans (countKey_upsertOne_ge now t b k) (ih (upsertOne now t b))

lemma countKey_upsertBatch_mem (now : ℤ) (rs : List PriceRecord) (t : List Row)
    (k : String × ℤ) (h : countKey k t ≤ 1) (hk : k ∈ rs.map recKey) :
    countKey k (upsertBatch now t rs) = 1 := by
  induction rs generalizing t with
  | nil => simp at hk
  | cons b bs ih =>
    by_cases hb : k = recKey b
    · subst hb
      have h1 : countKey (recKey b) (upsertOne now t b) = 1 :=
        countKey_upsertOne_self now t b h
      have h2 : countKey (recKey b) (upsertBatch now (upsertOne now t b) bs) ≤ 1 :=
        countKey_upsertBatch_le now bs (upsertOne now t b) _ (le_of_eq h1)
      have h3 : 1 ≤ countKey (recKey b) (upsertBatch now (upsertOne now t b) bs) := by
        calc 1 = countKey (recKey b) (upsertOne now t b) := h1.symm
        _ ≤ _ := countKey_upsertBatch_ge now bs (upsertOne now t b) _
      exact le_antisymm h2 h3
    · have hk' : k ∈ bs.map recKey := by
        rcases List.mem_map.mp hk with ⟨q, hq, hkq⟩
        cases hq with
        | head => exact absurd hkq.symm hb
        | tail _ hq' => exact List.mem_map.mpr ⟨q, hq', hkq⟩
      have ht' : countKey k (upsertOne now t b) ≤ 1 := by
        rw [countKey_upsertOne_other now t b k hb]; exact h
      exact ih (upsertOne now t b) ht' hk'

lemma findRow_upsertBatch_not_mem (now : ℤ) (rs : List PriceRecord) (t : List Row)
    (k : String × ℤ) (hk : k ∉ rs.map recKey) :
    findRow k (upsertBatch now t rs) = findRow k t := by
  induction rs generalizing t with
  | nil => rfl
  | cons b bs ih =>
    have h1 : k ≠ recKey b := fun h => hk (by simp [h])
    have h2 : k ∉ bs.map recKey := fun h => hk (by simp; right; simpa using h)
    calc findRow k (upsertBatch now (upsertOne now t b) bs)
        = findRow k (upsertOne now t b) := ih (upsertOne now t b) h2
    _ = findRow k t := findRow_upsertOne_other now t b k h1

lemma findRow_upsertBatch_mem (now : ℤ) (rs : List PriceRecord) (t : List Row)
    (hnd : (rs.map recKey).Nodup) (r : PriceRecord) (hr : r ∈ rs) :
    findRow (recKey r) (upsertBatch now t rs) = some (rowOf r now) := by
  induction rs generalizing t with
  | nil => simp at hr
  | cons b bs ih =>
    rw [List.map_cons] at hnd
    have hnd' := List.nodup_cons.mp hnd
    rcases List.mem_cons.mp hr with hb | hb
    · subst hb
      calc findRow (recKey r) (upsertBatch now (upsertOne now t r) bs)
          = findRow (recKey r) (upsertOne now t r) :=
            findRow_upsertBatch_not_mem now bs (upsertOne now t r) _ hnd'.1
      _ = some (rowOf r now) := findRow_upsertOne_self now t r
    · exact ih (upsertOne now t b) hnd'.2 hb

/-- C2, counterexample: upserting a record whose `(symbol, date)` key already
exists in the table does not leave the row's `created_at` unchanged — the
`ON CONFLICT` arm sets it to the statement's `CURRENT_TIMESTAMP`.  Here a row
created at time `0` is re-upserted at time `5` and its `created_at` becomes
`5`. -/
theorem upsert_refreshes_created_at :
    upsertBatch 5 [rowOf sampleRecord 0] [sampleRecord2] = [rowOf sampleRecord2 5] ∧
    (rowOf sampleRecord2 5).created_at ≠ (rowOf sampleRecord 0).created_at :=
  ⟨rfl, by decide⟩

/-- C2 (amended): for a batch with pairwise-distinct `(symbol, date)` keys
against a table satisfying the uniqueness constraint, the upsert overwrites
the four price fields, `volume`, **and** `created_at` (refreshed to the
statement's current timestamp); repeating the batch leaves exactly one row
per key, holding the second call's field values and the second call's
timestamp. -/
theorem store_upsert_idempotent (t : List Row) (batch : List PriceRecord)
    (now1 now2 : ℤ) (hU : ∀ k, countKey k t ≤ 1)
    (hB : (batch.map recKey).Nodup) (r : PriceRecord) (hr : r ∈ batch) :
    countKey (recKey r) (upsertBatch now2 (upsertBatch now1 t batch) batch) = 1 ∧
    findRow (recKey r) (upsertBatch now2 (upsertBatch now1 t batch) batch)
      = some (rowOf r now2) ∧
    findRow (recKey r) (upsertBatch now1 t batch) = some (rowOf r now1) := by
  refine ⟨?_, ?_, ?_⟩
  · exact countKey_upsertBatch_mem now2 batch _ _
      (countKey_upsertBatch_le now1 batch t _ (hU _))
      (List.mem_map_of_mem recKey hr)
  · exact findRow_upsertBatch_mem now2 batch _ hB r hr
  · exact findRow_upsertBatch_mem now1 batch t hB r hr

/-- Witness for `store_upsert_idempotent` at a concrete input. -/
theorem store_upsert_idempotent_witness :
    (∀ k, countKey k ([] : List Row) ≤ 1) ∧
    ([sampleRecord].map recKey).Nodup ∧ sampleRecord ∈ [sampleRecord] ∧
    (countKey (recKey sampleRecord)
        (upsertBatch 5 (upsertBatch 3 [] [sampleRecord]) [sampleRecord]) = 1 ∧
      findRow (recKey sampleRecord)
          (upsertBatch 5 (upsertBatch 3 [] [sampleRecord]) [sampleRecord])
        = some (rowOf sampleRecord 5) ∧
      findRow (recKey sampleRecord) (upsertBatch 3 [] [sampleRecord])
        = some (rowOf sampleRecord 3)) :=
  ⟨fun _ => by simp [countKey], List.nodup_singleton _, List.mem_singleton.mpr rfl,
    store_upsert_idempotent [] [sampleRecord] 3 5 (fun _ => by simp [countKey])
      (List.nodup_singleton _) sampleRecord (List.mem_singleton.mpr rfl)⟩

/-- C1, counterexample: a response carrying the rate-limit `'Note'` key makes
`fetch_stock_data` return no data; it does not fall back to the demo
generator. -/
theorem fetch_note_counterexample :
    noteResponse.note = some "API call volume limit reached" ∧
    fetch_stock_data "AAPL" 20000 (fun _ => drawsZero) (some noteResponse) = none :=
  ⟨rfl, rfl⟩

/-- C1 (amended): whenever the API response contains a `'Note'` key (and no
`'Error Message'`, which is checked first), `fetch_stock_data` returns no
data for that symbol — the failure propagates; the Demo Data Generator
fallback is reserved for `'Information'` responses, responses missing the
time-series key, and transport exceptions. -/
theorem fetch_note_propagates_failure (symbol : String) (today : ℤ)
    (draws : ℕ → Draws) (data : RawResponse)
    (hE : data.errorMessage = none) (hN : data.note.isSome) :
    fetch_stock_data symbol today draws (some data) = none := by
  simp [fetch_stock_data, hE, hN]

/-- Witness for `fetch_note_propagates_failure` at a concrete input. -/
theorem fetch_note_propagates_failure_witness :
    noteResponse.errorMessage = none ∧ noteResponse.note.isSome ∧
    fetch_stock_data "MSFT" 20000 (fun _ => drawsZero) (some noteResponse) = none :=
  ⟨rfl, rfl,
    fetch_note_propagates_failure "MSFT" 20000 (fun _ => drawsZero) noteResponse rfl rfl⟩

/-- C5, evaluation at the failing input: with a non-empty batch, a healthy
connection, and a cursor acquisition that raises, `save_to_database` leaves
the acquired connection unreleased (the `finally` block dies on the unbound
local `cursor` before reaching `connection.close()`) and the exception
escapes the function. -/
theorem save_cursor_failure_leaks_connection :
    (save_to_database { connectOk := true, cursorOk := false, execOk := true }
        0 [] [sampleRecord]).connOpened = true ∧
    (save_to_database { connectOk := true, cursorOk := false, execOk := true }
        0 [] [sampleRecord]).connClosed = false ∧
    (save_to_database { connectOk := true, cursorOk := false, execOk := true }
        0 [] [sampleRecord]).result = none :=
  ⟨rfl, rfl, rfl⟩

/-- C8: an empty record batch makes `save_to_database` return `False` before
any connection attempt: no rows are written, no connection is opened, and no
exception escapes. -/
theorem save_empty_input (w : DbWorld) (now : ℤ) (t : List Row) :
    (save_to_database w now t []).result = some false ∧
    (save_to_database w now t []).table = t ∧
    (save_to_database w now t []).connOpened = false :=
  ⟨rfl, rfl, rfl⟩

/-- C9: `run_pipeline` on an empty symbol list performs no fetch, parse, or
store operation (no events) and returns the vacuous `True`, leaving the
table untouched. -/
theorem run_pipeline_empty (env : Env) (t : List Row) :
    run_pipeline env t [] = (true, t, []) := rfl

lemma parseEntry_date (symbol : String) (d : ℤ) (dd : DailyRaw) (r : PriceRecord)
    (h : parseEntry symbol d dd = some r) : r.date = d := by
  rcases dd with ⟨o, hi, l, c, v⟩
  cases o <;> cases hi <;> cases l <;> cases c <;> cases v <;>
    simp only [parseEntry, reduceCtorEq] at h
  exact Option.some.inj h ▸ rfl

lemma parseLoop_total (symbol : String) (ts : List (ℤ × DailyRaw)) (ds : List ℤ)
    (h : ∀ d ∈ ds, ((lookupDate ts d).bind (parseEntry symbol d)).isSome) :
    ∃ rs, parseLoop symbol ts ds = some rs ∧ rs.map PriceRecord.date = ds := by
  induction ds with
  | nil => exact ⟨[], rfl, rfl⟩
  | cons d ds' ih =>
    have hd := h d (List.mem_cons_self d ds')
    obtain ⟨r, hr⟩ := Option.isSome_iff_exists.mp hd
    obtain ⟨rs', hrs', hmap⟩ := ih fun x hx => h x (List.mem_cons_of_mem d hx)
    refine ⟨r :: rs', ?_, ?_⟩
    · simp only [parseLoop, hr, hrs']
    · obtain ⟨dd, hdd, hpe⟩ := Option.bind_eq_some.mp hr
      simp [hmap, parseEntry_date symbol d dd r hpe]

lemma lookup_bind_isSome (symbol : String) (ts : List (ℤ × DailyRaw))
    (hp : ∀ p ∈ ts, (parseEntry symbol p.1 p.2).isSome)
    (d : ℤ) (hd : d ∈ ts.map Prod.fst) :
    ((lookupDate ts d).bind (parseEntry symbol d)).isSome := by
  have hex : ∃ p, p ∈ ts ∧ (p.1 == d) = true := by
    obtain ⟨p, hpm, he⟩ := List.mem_map.mp hd
    exact ⟨p, hpm, by simp [he]⟩
  obtain ⟨q, hq⟩ := Option.isSome_iff_exists.mp (List.find?_isSome.mpr hex)
  have hqmem := List.mem_of_find?_eq_some hq
  have hqd : q.1 = d := by simpa using List.find?_some hq
  have hlu : lookupDate ts d = some q.2 := by simp [lookupDate, hq]
  rw [hlu, Option.some_bind, ← hqd]
  exact hp q hqmem

lemma take7_keys_ok (symbol : String) (ts : List (ℤ × DailyRaw))
    (hp : ∀ p ∈ ts, (parseEntry symbol p.1 p.2).isSome) :
    ∀ d ∈ (List.insertionSort (· ≥ ·) (ts.map Prod.fst)).take 7,
      ((lookupDate ts d).bind (parseEntry symbol d)).isSome := by
  intro d hd
  apply lookup_bind_isSome symbol ts hp d
  exact (List.mem_insertionSort _).mp (List.take_subset _ _ hd)

/-- C3, counterexample: `badFieldResponse` is a successful `RawResponse`
(it has the time-series key and no error indicators, and the fetch stage
passes it through unchanged) whose time series has one entry with a distinct
date key, yet the parser returns zero records rather than one, because the
entry's open-price string fails the `float` conversion and the failure
boundary discards the whole batch. -/
theorem parser_bad_field_counterexample :
    fetch_stock_data "AAPL" 20000 (fun _ => drawsZero) (some badFieldResponse)
        = some badFieldResponse ∧
    badFieldResponse.timeSeries = some [(20000, badOpenDay)] ∧
    parse_stock_data badFieldResponse "AAPL" = [] :=
  ⟨rfl, rfl, rfl⟩

/-- C3 (amended): for every successful `RawResponse` whose time-series
entries have pairwise-distinct date keys **and all five fields of every
entry numerically parsable**, the parser returns the records of the most
recent `min 7 N` dates present, in strictly descending date order with no
duplicate dates: exactly 7 records when `N ≥ 7`, exactly `N` when `N < 7`,
never padding and never raising. -/
theorem parser_seven_most_recent (data : RawResponse) (symbol : String)
    (ts : List (ℤ × DailyRaw)) (hts : data.timeSeries = some ts)
    (hnd : (ts.map Prod.fst).Nodup)
    (hp : ∀ p ∈ ts, (parseEntry symbol p.1 p.2).isSome) :
    (parse_stock_data data symbol).map PriceRecord.date
        = (List.insertionSort (· ≥ ·) (ts.map Prod.fst)).take 7 ∧
    ((parse_stock_data data symbol).map PriceRecord.date).Pairwise (· > ·) ∧
    (7 ≤ ts.length → (parse_stock_data data symbol).length = 7) ∧
    (ts.length < 7 → (parse_stock_data data symbol).length = ts.length) := by
  obtain ⟨rs, hrs, hmap⟩ := parseLoop_total symbol ts _ (take7_keys_ok symbol ts hp)
  have hout : parse_stock_data data symbol = rs := by
    simp [parse_stock_data, hts, hrs]
  have hsorted : (List.insertionSort (· ≥ ·) (ts.map Prod.fst)).Pairwise (· ≥ ·) :=
    List.sorted_insertionSort _ _
  have hnd' : (List.insertionSort (· ≥ ·) (ts.map Prod.fst)).Nodup :=
    (List.perm_insertionSort _ _).nodup_iff.mpr hnd
  have hgt : (List.insertionSort (· ≥ ·) (ts.map Prod.fst)).Pairwise (· > ·) :=
    (hsorted.and hnd').imp fun hab => lt_of_le_of_ne hab.1 (Ne.symm hab.2)
  have hlen : rs.length = min 7 ts.length := by
    have hl := congrArg List.length hmap
    simpa [List.length_take, List.length_insertionSort] using hl
  refine ⟨?_, ?_, ?_, ?_⟩
  · rw [hout, hmap]
  · rw [hout, hmap]
    exact List.Pairwise.sublist (List.take_sublist 7 _) hgt
  · intro h7
    rw [hout]
    omega
  · intro h7
    rw [hout]
    omega

/-- Witness for `parser_seven_most_recent` at a concrete three-entry
series. -/
theorem parser_seven_most_recent_witness :
    smallResponse.timeSeries = some smallSeries ∧
    (smallSeries.map Prod.fst).Nodup ∧
    (∀ p ∈ smallSeries, (parseEntry "AAPL" p.1 p.2).isSome) ∧
    ((parse_stock_data smallResponse "AAPL").map PriceRecord.date
        = (List.insertionSort (· ≥ ·) (smallSeries.map Prod.fst)).take 7 ∧
      ((parse_stock_data smallResponse "AAPL").map PriceRecord.date).Pairwise (· > ·) ∧
      (7 ≤ smallSeries.length → (parse_stock_data smallResponse "AAPL").length = 7) ∧
      (smallSeries.length < 7 →
        (parse_stock_data smallResponse "AAPL").length = smallSeries.length)) :=
  ⟨rfl, by decide, by decide,
    parser_seven_most_recent smallResponse "AAPL" smallSeries rfl (by decide) (by decide)⟩

lemma lookupDate_of_nodup (ts : List (ℤ × DailyRaw))
    (hnd : (ts.map Prod.fst).Nodup) (d : ℤ) (dd : DailyRaw)
    (hmem : (d, dd) ∈ ts) : lookupDate ts d = some dd := by
  induction ts with
  | nil => simp at hmem
  | cons p rest ih =>
    rw [List.map_cons] at hnd
    have hnd' := List.nodup_cons.mp hnd
    rcases List.mem_cons.mp hmem with hpq | hpq
    · rw [← hpq]
      simp [lookupDate, List.find?]
    · have hdmem : d ∈ rest.map Prod.fst := by
        exact List.mem_map.mpr ⟨(d, dd), hpq, rfl⟩
      have hne : (p.1 == d) = false := by
        simp only [beq_eq_false_iff_ne, ne_eq]
        intro he
        exact hnd'.1 (he ▸ hdmem)
      have := ih hnd'.2 hpq
      simpa [lookupDate, List.find?, hne] using this

lemma parseLoop_mem (symbol : String) (ts : List (ℤ × DailyRaw)) (d : ℤ)
    (r : PriceRecord)
    (hr : (lookupDate ts d).bind (parseEntry symbol d) = some r) :
    ∀ ds rs, parseLoop symbol ts ds = some rs → d ∈ ds → r ∈ rs := by
  intro ds
  induction ds with
  | nil =>
    intro rs _ hd
    simp at hd
  | cons d' ds' ih =>
    intro rs h hd
    unfold parseLoop at h
    split at h
    · exact absurd h (by simp)
    · rename_i r' hb
      split at h
      · exact absurd h (by simp)
      · rename_i rs' hl
        have hrs : rs = r' :: rs' := by
          simpa using h.symm
        subst hrs
        rcases List.mem_cons.mp hd with hdd | hdd
        · subst hdd
          rw [hr] at hb
          have : r = r' := by simpa using hb
          subst this
          exact List.mem_cons_self r rs'
        · exact List.mem_cons_of_mem r' (ih rs' hl hdd)

/-- C10: the parser performs no range validation — for a time series with
distinct, fully parsable entries, any entry among the 7 most recent dates is
emitted as a `PriceRecord` carrying exactly the parsed values, with no
constraint relating or bounding `open/high/low/close/volume` (zero, negative,
or OHLC-order-violating values flow through to the Store). -/
theorem parser_no_range_validation (data : RawResponse) (symbol : String)
    (ts : List (ℤ × DailyRaw)) (hts : data.timeSeries = some ts)
    (hnd : (ts.map Prod.fst).Nodup)
    (hp : ∀ p ∈ ts, (parseEntry symbol p.1 p.2).isSome)
    (d : ℤ) (dd : DailyRaw) (hmem : (d, dd) ∈ ts)
    (hd : d ∈ (List.insertionSort (· ≥ ·) (ts.map Prod.fst)).take 7)
    (o h l c : ℚ) (v : ℤ)
    (hdd : dd = { open_1 := some o, high_2 := some h, low_3 := some l,
                  close_4 := some c, volume_5 := some v }) :
    ({ symbol := symbol, date := d, open_price := o, high_price := h,
       low_price := l, close_price := c, volume := v } : PriceRecord)
      ∈ parse_stock_data data symbol := by
  have hlu : lookupDate ts d = some dd := lookupDate_of_nodup ts hnd d dd hmem
  have hbind : (lookupDate ts d).bind (parseEntry symbol d)
      = some { symbol := symbol, date := d, open_price := o, high_price := h,
               low_price := l, close_price := c, volume := v } := by
    rw [hlu, hdd]
    rfl
  obtain ⟨rs, hrs, hmap⟩ := parseLoop_total symbol ts _ (take7_keys_ok symbol ts hp)
  have hout : parse_stock_data data symbol = rs := by
    simp [parse_stock_data, hts, hrs]
  rw [hout]
  exact parseLoop_mem symbol ts d _ hbind _ rs hrs hd

/-- Witness for `parser_no_range_validation`: a record with a negative open
price, a zero close, and `low > high` is emitted verbatim. -/
theorem parser_no_range_validation_witness :
    wildResponse.timeSeries = some wildSeries ∧
    (wildSeries.map Prod.fst).Nodup ∧
    (∀ p ∈ wildSeries, (parseEntry "AAPL" p.1 p.2).isSome) ∧
    ((20005 : ℤ), wildDay) ∈ wildSeries ∧
    ({ symbol := "AAPL", date := 20005, open_price := -5, high_price := 1,
       low_price := 8, close_price := 0, volume := 42 } : PriceRecord)
      ∈ parse_stock_data wildResponse "AAPL" :=
  ⟨rfl, by decide, by decide, by decide,
    parser_no_range_validation wildResponse "AAPL" wildSeries rfl (by decide) (by decide)
      20005 wildDay (by decide) (by decide) (-5) 1 8 0 42 rfl⟩

lemma base_price_ge (symbol : String) : (100 : ℚ) ≤ base_price symbol := by
  unfold base_price
  split_ifs <;> norm_num

lemma round2_mono {x y : ℚ} (h : x ≤ y) : round2 x ≤ round2 y := by
  unfold round2
  have h1 : ⌊x * 100 + 1/2⌋ ≤ ⌊y * 100 + 1/2⌋ := Int.floor_le_floor (by linarith)
  have h2 : ((⌊x * 100 + 1/2⌋ : ℤ) : ℚ) ≤ ((⌊y * 100 + 1/2⌋ : ℤ) : ℚ) := by
    exact_mod_cast h1
  linarith

lemma round2_pos {x : ℚ} (h : 1 ≤ x) : 0 < round2 x := by
  unfold round2
  have h1 : (100 : ℤ) ≤ ⌊x * 100 + 1/2⌋ := by
    apply Int.le_floor.mpr
    push_cast
    linarith
  have h2 : (100 : ℚ) ≤ ((⌊x * 100 + 1/2⌋ : ℤ) : ℚ) := by exact_mod_cast h1
  linarith

lemma round2_min (a b : ℚ) : round2 (min a b) = min (round2 a) (round2 b) := by
  rcases le_total a b with h | h
  · rw [min_eq_left h, min_eq_left (round2_mono h)]
  · rw [min_eq_right h, min_eq_right (round2_mono h)]

lemma round2_max (a b : ℚ) : round2 (max a b) = max (round2 a) (round2 b) := by
  rcases le_total a b with h | h
  · rw [max_eq_right h, max_eq_right (round2_mono h)]
  · rw [max_eq_left h, max_eq_left (round2_mono h)]

lemma open_price_ge (symbol : String) (d : Draws) (hr : d.InRange) :
    (98 : ℚ) ≤ open_price symbol d := by
  obtain ⟨h1, h2, h3, h4, h5, h6, h7, h8, h9, h10⟩ := hr
  have hbase := base_price_ge symbol
  have hm := mul_le_mul hbase (show (49/50 : ℚ) ≤ 1 + d.openJitter by linarith)
    (by norm_num) (le_trans (by norm_num) hbase)
  unfold open_price
  linarith

lemma close_price_ge (symbol : String) (d : Draws) (hr : d.InRange) :
    (93 : ℚ) ≤ close_price symbol d := by
  have hop := open_price_ge symbol d hr
  obtain ⟨h1, h2, h3, h4, h5, h6, h7, h8, h9, h10⟩ := hr
  have hm := mul_le_mul hop (show (19/20 : ℚ) ≤ 1 + d.dailyChange by linarith)
    (by norm_num) (le_trans (by norm_num) hop)
  unfold close_price
  linarith

lemma min_open_close_ge (symbol : String) (d : Draws) (hr : d.InRange) :
    (93 : ℚ) ≤ min (open_price symbol d) (close_price symbol d) :=
  le_min (by linarith [open_price_ge symbol d hr]) (close_price_ge symbol d hr)

lemma low_price_ge (symbol : String) (d : Draws) (hr : d.InRange) :
    (1 : ℚ) ≤ low_price symbol d := by
  have hmin := min_open_close_ge symbol d hr
  obtain ⟨h1, h2, h3, h4, h5, h6, h7, h8, h9, h10⟩ := hr
  have hm := mul_le_mul hmin (show (97/100 : ℚ) ≤ 1 - d.lowExt by linarith)
    (by norm_num) (le_trans (by norm_num) hmin)
  unfold low_price
  linarith

lemma low_price_le (symbol : String) (d : Draws) (hr : d.InRange) :
    low_price symbol d ≤ min (open_price symbol d) (close_price symbol d) := by
  have hmin := min_open_close_ge symbol d hr
  obtain ⟨h1, h2, h3, h4, h5, h6, h7, h8, h9, h10⟩ := hr
  unfold low_price
  exact mul_le_of_le_one_right (by linarith) (by linarith)

lemma high_price_ge_max (symbol : String) (d : Draws) (hr : d.InRange) :
    max (open_price symbol d) (close_price symbol d) ≤ high_price symbol d := by
  have hmin := min_open_close_ge symbol d hr
  have hmax := le_trans hmin (min_le_max)
  obtain ⟨h1, h2, h3, h4, h5, h6, h7, h8, h9, h10⟩ := hr
  unfold high_price
  exact le_mul_of_one_le_right (by linarith) (by linarith)

/-- C4: for every symbol and every outcome of the random draws (within the
ranges the random library guarantees), `get_demo_data` returns a response
whose time series has exactly 7 entries keyed by the 7 most recent calendar
dates (today going backward, all distinct), and every entry — after the
two-decimal formatting of the prices — has all four prices positive,
`low ≤ min(open, close)`, `high ≥ max(open, close)`, and an integer volume
in `[1000000, 10000000]`. -/
theorem demo_data_invariants (symbol : String) (today : ℤ) (draws : ℕ → Draws)
    (hd : ∀ i, i < 7 → (draws i).InRange) :
    ∃ ts, (get_demo_data symbol today draws).timeSeries = some ts ∧
      ts.length = 7 ∧
      ts.map Prod.fst = (List.range 7).map (fun (i : ℕ) => today - (i : ℤ)) ∧
      (ts.map Prod.fst).Nodup ∧
      ∀ p ∈ ts, ∃ o hi l c v,
        p.2 = { open_1 := some o, high_2 := some hi, low_3 := some l,
                close_4 := some c, volume_5 := some v } ∧
        0 < o ∧ 0 < hi ∧ 0 < l ∧ 0 < c ∧
        l ≤ min o c ∧ max o c ≤ hi ∧
        1000000 ≤ v ∧ v ≤ 10000000 := by
  refine ⟨_, rfl, ?_, ?_, ?_, ?_⟩
  · simp
  · simp [List.map_map]
  · rw [List.map_map]
    have hinj : Function.Injective fun (i : ℕ) => today - (i : ℤ) := by
      intro a b hab
      simp only at hab
      omega
    exact List.Nodup.map hinj (List.nodup_range 7)
  · intro p hp
    obtain ⟨i, hi, hpe⟩ := List.mem_map.mp hp
    have hir : (draws i).InRange := hd i (List.mem_range.mp hi)
    have hop := open_price_ge symbol (draws i) hir
    have hcp := close_price_ge symbol (draws i) hir
    have hlow1 := low_price_ge symbol (draws i) hir
    have hlow2 := low_price_le symbol (draws i) hir
    have hhigh := high_price_ge_max symbol (draws i) hir
    have hhigh1 : (1 : ℚ) ≤ high_price symbol (draws i) :=
      le_trans (le_trans (by norm_num) (le_trans (min_open_close_ge symbol (draws i) hir)
        min_le_max)) hhigh
    obtain ⟨h1, h2, h3, h4, h5, h6, h7, h8, hv1, hv2⟩ := hir
    refine ⟨round2 (open_price symbol (draws i)), round2 (high_price symbol (draws i)),
      round2 (low_price symbol (draws i)), round2 (close_price symbol (draws i)),
      (draws i).volume, ?_, ?_, ?_, ?_, ?_, ?_, ?_, hv1, hv2⟩
    · rw [← hpe]
      rfl
    · exact round2_pos (by linarith)
    · exact round2_pos hhigh1
    · exact round2_pos hlow1
    · exact round2_pos (by linarith)
    · rw [← round2_min]
      exact round2_mono hlow2
    · rw [← round2_max]
      exact round2_mono hhigh

/-- Witness for `demo_data_invariants` at a concrete input. -/
theorem demo_data_invariants_witness :
    (∀ i, i < 7 → ((fun _ => drawsZero) i).InRange) ∧
    (∃ ts, (get_demo_data "AAPL" 20000 fun _ => drawsZero).timeSeries = some ts ∧
      ts.length = 7 ∧
      ts.map Prod.fst = (List.range 7).map (fun (i : ℕ) => 20000 - (i : ℤ)) ∧
      (ts.map Prod.fst).Nodup ∧
      ∀ p ∈ ts, ∃ o hi l c v,
        p.2 = { open_1 := some o, high_2 := some hi, low_3 := some l,
                close_4 := some c, volume_5 := some v } ∧
        0 < o ∧ 0 < hi ∧ 0 < l ∧ 0 < c ∧
        l ≤ min o c ∧ max o c ≤ hi ∧
        1000000 ≤ v ∧ v ≤ 10000000) :=
  ⟨fun _ _ => by norm_num [Draws.InRange, drawsZero],
    demo_data_invariants "AAPL" 20000 (fun _ => drawsZero)
      fun _ _ => by norm_num [Draws.InRange, drawsZero]⟩

lemma save_result_table (w : DbWorld) (now : ℤ) (t t' : List Row)
    (records : List PriceRecord) :
    (save_to_database w now t records).result
      = (save_to_database w now t' records).result := by
  unfold save_to_database
  split_ifs <;> rfl

lemma processSymbol_agree (env : Env) (t : List Row) (s : String) :
    (processSymbol env t s).1 = symbol_success env s ∧
    (processSymbol env t s).2.2 = symbol_events env s := by
  unfold symbol_success symbol_events processSymbol
  cases fetch_stock_data s env.today (env.draws s) (env.transport s) with
  | none => exact ⟨rfl, rfl⟩
  | some raw =>
    by_cases hre : (parse_stock_data raw s).isEmpty
    · simp [hre]
    · simp only [hre, Bool.false_eq_true, if_false]
      rw [save_result_table (env.db s) env.now t [] (parse_stock_data raw s)]
      rcases (save_to_database (env.db s) env.now [] (parse_stock_data raw s)).result
        with _ | b
      · exact ⟨rfl, rfl⟩
      · cases b
        · exact ⟨rfl, rfl⟩
        · exact ⟨rfl, rfl⟩

lemma run_success (env : Env) (t : List Row) (symbols : List String) :
    (run_pipeline env t symbols).1 = symbols.all (symbol_success env) := by
  induction symbols generalizing t with
  | nil => rfl
  | cons s rest ih =>
    show ((processSymbol env t s).1
        && (run_pipeline env (processSymbol env t s).2.1 rest).1) = _
    rw [(processSymbol_agree env t s).1, ih ((processSymbol env t s).2.1), List.all_cons]

lemma run_events (env : Env) (t : List Row) (symbols : List String) :
    (run_pipeline env t symbols).2.2 = symbols.flatMap (symbol_events env) := by
  induction symbols generalizing t with
  | nil => rfl
  | cons s rest ih =>
    show ((processSymbol env t s).2.2
        ++ (run_pipeline env (processSymbol env t s).2.1 rest).2.2) = _
    rw [(processSymbol_agree env t s).2, ih ((processSymbol env t s).2.1), List.flatMap_cons]

lemma processSymbol_spec (env : Env) (s : String) :
    (symbol_success env s = true ∧
      symbol_events env s = [Event.fetch s, Event.parse s, Event.store s, Event.sleep]) ∨
    (symbol_success env s = false ∧
      (symbol_events env s = [Event.fetch s] ∨
       symbol_events env s = [Event.fetch s, Event.parse s] ∨
       symbol_events env s = [Event.fetch s, Event.parse s, Event.store s])) := by
  unfold symbol_success symbol_events processSymbol
  cases fetch_stock_data s env.today (env.draws s) (env.transport s) with
  | none => simp
  | some raw =>
    by_cases hre : (parse_stock_data raw s).isEmpty
    · simp [hre]
    · simp only [hre, Bool.false_eq_true, if_false]
      rcases (save_to_database (env.db s) env.now [] (parse_stock_data raw s)).result
        with _ | b
      · simp
      · cases b <;> simp

lemma count_fetch_events (env : Env) (s s' : String) :
    (symbol_events env s').count (Event.fetch s) = if s = s' then 1 else 0 := by
  rcases processSymbol_spec env s' with ⟨_, he⟩ | ⟨_, he | he | he⟩ <;> rw [he] <;>
    by_cases hss : s = s' <;> simp [hss, List.count_cons, List.count_nil]

/-- C6: the Runner pauses for the fixed interval exactly after a symbol
that reached `stored_ok` — the pause event is the tail of that symbol's
event block, follows its store attempt, and never appears in a failed
symbol's block — and every symbol is attempted exactly once per occurrence
in the input list (no retry within a run). -/
theorem runner_pacing (env : Env) (t : List Row) (symbols : List String) :
    (run_pipeline env t symbols).2.2 = symbols.flatMap (symbol_events env) ∧
    (∀ s, symbol_success env s = true →
      symbol_events env s = [Event.fetch s, Event.parse s, Event.store s, Event.sleep]) ∧
    (∀ s, symbol_success env s = false → Event.sleep ∉ symbol_events env s) ∧
    (∀ s, (run_pipeline env t symbols).2.2.count (Event.fetch s) = symbols.count s) := by
  refine ⟨run_events env t symbols, ?_, ?_, ?_⟩
  · intro s hs
    rcases processSymbol_spec env s with ⟨_, he⟩ | ⟨hf, _⟩
    · exact he
    · rw [hs] at hf
      exact absurd hf (by simp)
  · intro s hs
    rcases processSymbol_spec env s with ⟨ht, _⟩ | ⟨_, he | he | he⟩
    · rw [hs] at ht
      exact absurd ht (by simp)
    · rw [he]; simp
    · rw [he]; simp
    · rw [he]; simp
  · intro s
    rw [run_events]
    induction symbols with
    | nil => rfl
    | cons s' rest ih =>
      rw [List.flatMap_cons, List.count_append, ih, count_fetch_events, List.count_cons]
      by_cases hss : s = s'
      · subst hss
        simp [Nat.add_comm]
      · simp [hss, Ne.symm hss]

/-- C7: the pipeline's boolean result is the logical AND of the per-symbol
outcomes — `false` iff at least one symbol failed — and a failure never
aborts the run: every listed symbol still gets its fetch attempt. -/
theorem pipeline_result_and (env : Env) (t : List Row) (symbols : List String) :
    (run_pipeline env t symbols).1 = symbols.all (symbol_success env) ∧
    (∀ s ∈ symbols, Event.fetch s ∈ (run_pipeline env t symbols).2.2) ∧
    ((run_pipeline env t symbols).1 = false ↔
      ∃ s ∈ symbols, symbol_success env s = false) := by
  refine ⟨run_success env t symbols, ?_, ?_⟩
  · intro s hs
    rw [run_events]
    have hmem : Event.fetch s ∈ symbol_events env s := by
      rcases processSymbol_spec env s with ⟨_, he⟩ | ⟨_, he | he | he⟩ <;> rw [he] <;> simp
    exact List.mem_flatMap.mpr ⟨s, hs, hmem⟩
  · rw [run_success env t symbols]
    rw [← Bool.not_eq_true, List.all_eq_true]
    push_neg
    simp [Bool.not_eq_true]

end StockPipeline
